import Mathlib

/-!
Shallow embedding of the Timesheet_App business logic (timesheet/models.py,
timesheet/views.py, timesheet/forms.py) and proofs about the frozen claims.

Modelling conventions:
* A calendar date is a `Nat`: the number of days since 1969-12-29, which is a
  Monday, so Python's `date.weekday()` (Monday = 0 .. Sunday = 6) is `d % 7`,
  and `date + timedelta(days=1)` is `d + 1`.  `date.year` is `yearOf`, the
  standard civil-from-days conversion (proleptic Gregorian), valid for every
  date from 1970 on, which covers the application's domain.
* `Decimal` hour amounts (`DecimalField(decimal_places=2)`) are integers of
  hundredths of an hour (`ℤ`): 7.5 h is `750`, 37.5 h is `3750`.  `Decimal`
  day amounts (`decimal_places=1`) are integers of tenths of a day: an
  allocation of 25 days is `250`, and a request of n business days has
  `total_days = 10 * n`.  Fixed-point decimals make both encodings exact.
* The relational store is a `State` holding lists of rows; Django querysets
  become list filters, `save()` becomes an explicit state transition, and a
  `ValidationError` / `Http404` becomes an `Except`/result value.
-/

namespace Timesheet

/-- Python `date.weekday()`: Monday is 0 and Sunday is 6. -/
def weekday (d : Nat) : Nat := d % 7

/-- Python `current_date.weekday() < 5` — Monday through Friday. -/
def isBusinessDay (d : Nat) : Bool := decide (weekday d < 5)

/-- Civil year of a day (`date.year`), via the standard days-to-civil
conversion.  `d + 719465` is the count of days since 0000-03-01. -/
def yearOf (d : Nat) : Nat :=
  let z := d + 719465
  let era := z / 146097
  let doe := z % 146097
  let yoe := (doe - doe / 1460 + doe / 36524 - doe / 146096) / 365
  let y := yoe + era * 400
  let doy := doe - (365 * yoe + yoe / 4 - yoe / 100)
  let mp := (5 * doy + 2) / 153
  if mp < 10 then y else y + 1

/-- Model `LeaveRequest.STATUS_CHOICES`. -/
inductive Status where
  | PENDING
  | APPROVED
  | REJECTED
  | CANCELLED
deriving DecidableEq

/-- The custom `User` model: primary key plus the nullable self-referential
`manager` foreign key.  (Profile fields that no claim touches are omitted.) -/
structure User where
  id : Nat
  manager : Option Nat
deriving DecidableEq

/-- The `Project` model: primary key, `active` flag and member roster. -/
structure Project where
  id : Nat
  active : Bool
  members : List Nat
deriving DecidableEq

/-- The `TimeEntry` model: `(user, project, date)` key, decimal hours and the
`submitted` flag. -/
structure TimeEntry where
  user : Nat
  project : Nat
  date : Nat
  hours : ℤ
  submitted : Bool
deriving DecidableEq

/-- The `LeaveEntitlement` model: `(user, leave_type, year)` unique key and the
allocated decimal day count. -/
structure LeaveEntitlement where
  user : Nat
  leaveType : Nat
  year : Nat
  allocatedDays : ℤ
deriving DecidableEq

/-- The `LeaveRequest` model.  `approved_at`/`created`/`updated` timestamps and
the free-text `comments` carry no claim-relevant logic and are omitted. -/
structure LeaveRequest where
  id : Nat
  user : Nat
  leaveType : Nat
  startDate : Nat
  endDate : Nat
  totalDays : ℤ
  status : Status
  approvedBy : Option Nat
  rejectionReason : String
deriving DecidableEq

/-- The relational store: one list of rows per model. -/
structure State where
  users : List User
  projects : List Project
  entries : List TimeEntry
  entitlements : List LeaveEntitlement
  leaves : List LeaveRequest
deriving DecidableEq

/-! ## Business-day calculator (`LeaveRequest.calculate_business_days`) -/
/-- The body of the `while current_date <= self.end_date` loop, indexed by the
number of remaining iterations: counts business days among
`d, d+1, …, d+n-1`. -/
def businessDaysFrom : Nat → Nat → Nat
  | _, 0 => 0
  | d, n + 1 => (if isBusinessDay d then 1 else 0) + businessDaysFrom (d + 1) n

/-- Model method `LeaveRequest.calculate_business_days`: iterate one day at a time from
`start_date` to `end_date` inclusive, counting days with `weekday() < 5`.
When `start > end` the loop body never runs and the result is 0
(`e + 1 - s = 0` in `Nat`). -/
def calculate_business_days (s e : Nat) : Nat :=
  businessDaysFrom s (e + 1 - s)

/-! ## TimeEntry validation (`TimeEntry.clean` / `TimeEntry.save`) -/
/-- The queryset
`LeaveRequest.objects.filter(user=…, status="APPROVED", start_date__lte=…,
end_date__gte=…).exists()` used by `TimeEntry.clean`. -/
def isLeaveDay (leaves : List LeaveRequest) (u d : Nat) : Bool :=
  leaves.any fun lr =>
    decide (lr.user = u ∧ lr.status = Status.APPROVED ∧
      lr.startDate ≤ d ∧ d ≤ lr.endDate)

/-- The aggregate `TimeEntry.objects.filter(user=…, date=…).exclude(pk=self.pk)
.aggregate(Sum("hours"))`: the hours already booked by `u` on date `d`
outside the `(u, p, d)` row being written.  (`(user, project, date)` is
`unique_together`, so excluding the row's primary key is excluding the
`(u, p, d)` key.) -/
def otherHours (entries : List TimeEntry) (u p d : Nat) : ℤ :=
  ((entries.filter fun e =>
      decide (e.user = u ∧ e.date = d ∧ ¬ e.project = p)).map (·.hours)).sum

/-- Total hours booked by user `u` on date `d` across all projects. -/
def sumUserDate (entries : List TimeEntry) (u d : Nat) : ℤ :=
  ((entries.filter fun e => decide (e.user = u ∧ e.date = d)).map (·.hours)).sum

/-- Errors a write can raise: the `ValidationError` from `TimeEntry.clean`,
the `ValidationError` from `clean_fields` (the `DecimalValidator` of
`hours = DecimalField(max_digits=4, decimal_places=2)`), or the `Http404`
from `get_object_or_404(Project, …)` in the weekly view. -/
inductive SaveError where
  | capExceeded (hours : ℤ) (date : Nat)
  | invalidHours (hours : ℤ)
  | projectNotFound (pid : Nat)
deriving DecidableEq

/-- Model method `TimeEntry.clean`: skip validation on approved leave days; otherwise
reject when the existing hours for `(user, date)` plus the new hours exceed
7.5. -/
def TimeEntry_clean (s : State) (u p d : Nat) (h : ℤ) : Option SaveError :=
  if isLeaveDay s.leaves u d then none
  else if otherHours s.entries u p d + h > 750 then
    some (.capExceeded h d)
  else none

/-- Field validation run by `full_clean` (`Model.clean_fields`): the
`DecimalValidator` of `hours = DecimalField(max_digits=4, decimal_places=2)`
allows at most 2 digits before the decimal point and 2 after, so a stored
value must satisfy |hours| ≤ 99.99 — in hundredths, |h| ≤ 9999.  (Values
with more than two decimal places are not representable in the hundredths
encoding and so lie outside the modelled input domain; the program rejects
them through this same validator.) -/
def TimeEntry_clean_fields (h : ℤ) : Option SaveError :=
  if h > 9999 ∨ h < -9999 then some (.invalidHours h) else none

/-- Write the `(u, p, d)` row (insert, or overwrite under the
`unique_together` key — `update_or_create` semantics). -/
def insertEntry (s : State) (u p d : Nat) (h : ℤ) (sub : Bool) : State :=
  { s with entries :=
      (s.entries.filter fun e =>
        decide (¬ (e.user = u ∧ e.project = p ∧ e.date = d))) ++
      [⟨u, p, d, h, sub⟩] }

/-- Model method `TimeEntry.save`: run `full_clean` first, then write.
`full_clean` runs `clean_fields` and then `clean`, collecting the errors of
both before raising; the model returns a single error value and reports the
`clean` (cap) error when both checks fail, so the success/failure boundary is
exactly the program's and only the reported message is collapsed. -/
def saveTimeEntry (s : State) (u p d : Nat) (h : ℤ) (sub : Bool) :
    Except SaveError State :=
  match TimeEntry_clean s u p d h with
  | some err => .error err
  | none =>
    match TimeEntry_clean_fields h with
    | some err => .error err
    | none => .ok (insertEntry s u p d h sub)

/-! ## Leave balances (`LeaveEntitlement.used_days` / `remaining_days`,
`User.get_leave_balance`) -/
/-- Property `LeaveEntitlement.used_days`: sum of `total_days` over the user's APPROVED
requests of this leave type whose start date falls in the entitlement year. -/
def used_days (s : State) (u lt year : Nat) : ℤ :=
  ((s.leaves.filter fun lr =>
      decide (lr.user = u ∧ lr.leaveType = lt ∧ yearOf lr.startDate = year ∧
        lr.status = Status.APPROVED)).map (·.totalDays)).sum

/-- Property `LeaveEntitlement.remaining_days` = `allocated_days - used_days`,
recomputed from the request table on every read. -/
def remaining_days (s : State) (ent : LeaveEntitlement) : ℤ :=
  ent.allocatedDays - used_days s ent.user ent.leaveType ent.year

/-- Lookup `self.leave_entitlements.get(leave_type=…, year=…)` —
`(user, leave_type, year)` is `unique_together`, so `find?` models `get`. -/
def findEntitlement (s : State) (u lt year : Nat) : Option LeaveEntitlement :=
  s.entitlements.find? fun ent =>
    decide (ent.user = u ∧ ent.leaveType = lt ∧ ent.year = year)

/-- Method `User.get_leave_balance`: the entitlement's `remaining_days`, or 0 when no
`LeaveEntitlement` row exists (`DoesNotExist` is caught). -/
def get_leave_balance (s : State) (u lt year : Nat) : ℤ :=
  match findEntitlement s u lt year with
  | some ent => remaining_days s ent
  | none => 0

/-! ## Users and the manager check -/
def findUser (s : State) (uid : Nat) : Option User :=
  s.users.find? fun v => decide (v.id = uid)

/-- Method `User.is_manager_of`: `user.manager == self` — a direct-parent check
only. -/
def is_manager_of (s : State) (actor target : Nat) : Bool :=
  match findUser s target with
  | some t => decide (t.manager = some actor)
  | none => false

/-! ## Leave-request creation
(`LeaveRequestForm.clean` + the `leave_request_form` view) -/
/-- Form validation `LeaveRequestForm.clean`: date-order check, past-date check, then the
overlap check against the requester's own PENDING / APPROVED requests.
Returns the first `ValidationError` message raised, if any. -/
def leaveRequestFormClean (s : State) (u today sd ed : Nat) :
    Option String :=
  if sd > ed then some "Start date cannot be after end date."
  else if sd < today then some "Start date cannot be before today."
  else if s.leaves.any fun lr =>
      decide (lr.user = u ∧
        (lr.status = Status.PENDING ∨ lr.status = Status.APPROVED) ∧
        lr.startDate ≤ ed ∧ sd ≤ lr.endDate) then
    some "You have an overlapping leave request. Please adjust your dates."
  else none

/-- Outcome of the `leave_request_form` view's POST branch. -/
inductive CreateResult where
  | invalidForm (msg : String)
  | noEntitlement
  | insufficientBalance (remaining : ℤ)
  | created (totalDays : ℤ)
deriving DecidableEq

/-- The `leave_request_form` view, POST branch: validate the form, compute
`total_days` from the business-day calculator (in tenths of a day), look up
the `LeaveEntitlement` for `(user, leave_type, start_date.year)`, check the
balance, and only then persist the new PENDING request.  On any error the
request is not persisted and the state is unchanged.  (`leave_request.save()`
is called with model validation skipped, exactly as in the view.) -/
def leave_request_form (s : State) (u today lt sd ed newId : Nat) :
    CreateResult × State :=
  match leaveRequestFormClean s u today sd ed with
  | some msg => (.invalidForm msg, s)
  | none =>
    let totalDays : ℤ := 10 * (calculate_business_days sd ed : ℤ)
    match findEntitlement s u lt (yearOf sd) with
    | none => (.noEntitlement, s)
    | some ent =>
      if totalDays > remaining_days s ent then
        (.insufficientBalance (remaining_days s ent), s)
      else
        (.created totalDays,
          { s with leaves := s.leaves ++
              [⟨newId, u, lt, sd, ed, totalDays, .PENDING, none, ""⟩] })

/-! ## Approve / reject / cancel
(`LeaveRequest.approve` / `.reject`, views `approve_reject_leave` and
`cancel_leave_request`) -/
/-- Lookup `get_object_or_404(LeaveRequest, pk=request_id)`. -/
def findLeave (s : State) (rid : Nat) : Option LeaveRequest :=
  s.leaves.find? fun lr => decide (lr.id = rid)

/-- Persist a change to the leave request with primary key `rid`
(`self.save()` updates the row in place). -/
def updateLeave (s : State) (rid : Nat) (f : LeaveRequest → LeaveRequest) :
    State :=
  { s with leaves := s.leaves.map fun lr => if lr.id = rid then f lr else lr }

/-- The manager's action arriving in `request.POST["action"]`, with the
rejection reason for `action == "reject"`.  The reason carries the value of
`request.POST.get("rejection_reason", "").strip()` — i.e. already stripped, so
the view's blank check is emptiness. -/
inductive Decision where
  | approveAct
  | rejectAct (reason : String)
deriving DecidableEq

/-- HTTP-level outcome of `approve_reject_leave` / `cancel_leave_request`.
`serverError` is an unhandled exception escaping the view (answered by the
framework as a 500, never as the intended response). -/
inductive LeaveActionResult where
  | notFound
  | serverError
  | reasonRequired
  | notPending
  | done
deriving DecidableEq

/-- The `approve_reject_leave` view: look the request up, check that the
acting user is the owner's direct manager, then run `LeaveRequest.approve`
(set status APPROVED and record the approver) or `LeaveRequest.reject`
(require a non-blank reason, set status REJECTED, record reviewer and
reason).  NOTE the view never inspects the request's current status.
NOTE also that the not-a-manager branch never reaches its
`JsonResponse({"error": "Permission denied"}, status=403)`: the warning
f-string it evaluates first interpolates `request.id`, and `request` is the
`HttpRequest` (the leave request is `leave_request`), which has no `id`
attribute — the branch raises `AttributeError`, modelled as `.serverError`
with the store unchanged.  Timestamps and the log-only notification stubs
are not modelled. -/
def approve_reject_leave (s : State) (actor rid : Nat) (act : Decision) :
    LeaveActionResult × State :=
  match findLeave s rid with
  | none => (.notFound, s)
  | some lr =>
    if is_manager_of s actor lr.user then
      match act with
      | .approveAct =>
        (.done, updateLeave s rid fun l =>
          { l with status := .APPROVED, approvedBy := some actor })
      | .rejectAct reason =>
        if reason = "" then (.reasonRequired, s)
        else
          (.done, updateLeave s rid fun l =>
            { l with status := .REJECTED
                     approvedBy := some actor
                     rejectionReason := reason })
    else (.serverError, s)

/-- The `cancel_leave_request` view: `get_object_or_404(LeaveRequest,
pk=request_id, user=request.user)`, then refuse unless the request is still
PENDING, else set status CANCELLED. -/
def cancel_leave_request (s : State) (actor rid : Nat) :
    LeaveActionResult × State :=
  match s.leaves.find? fun lr => decide (lr.id = rid ∧ lr.user = actor) with
  | none => (.notFound, s)
  | some lr =>
    if lr.status ≠ Status.PENDING then (.notPending, s)
    else (.done, updateLeave s rid fun l => { l with status := .CANCELLED })

/-! ## The overlap invariant over PENDING / APPROVED requests -/
/-- A request that occupies the calendar: status PENDING or APPROVED —
the status set used by the form's overlap queryset. -/
def isActive (st : Status) : Prop := st = .PENDING ∨ st = .APPROVED

instance (st : Status) : Decidable (isActive st) :=
  decidable_of_iff (st = .PENDING ∨ st = .APPROVED) Iff.rfl

/-- Two requests' closed date ranges intersect
(`start_date__lte=end_date, end_date__gte=start_date`). -/
def overlapping (l1 l2 : LeaveRequest) : Prop :=
  l1.startDate ≤ l2.endDate ∧ l2.startDate ≤ l1.endDate

instance (l1 l2 : LeaveRequest) : Decidable (overlapping l1 l2) :=
  decidable_of_iff
    (l1.startDate ≤ l2.endDate ∧ l2.startDate ≤ l1.endDate) Iff.rfl

/-- The claimed invariant: no two requests of the same user with intersecting
date ranges are simultaneously both in {PENDING, APPROVED}. -/
def noActiveOverlap (s : State) : Prop :=
  s.leaves.Pairwise fun l1 l2 => l1.user = l2.user → isActive l1.status →
    isActive l2.status → ¬ overlapping l1 l2

instance (s : State) : Decidable (noActiveOverlap s) := by
  unfold noActiveOverlap
  infer_instance

/-! ## The weekly timesheet view (`weekly_timesheet`, POST `action=submit`)

The view parses every posted `hours_<pid>_<date>` field in order, accumulates
per-day totals, collects errors (`InvalidOperation` on the Decimal parse, or a
day total exceeding 7.5), and keeps the parsed pairs in the dict `raw`
(overwrite on duplicate keys).  If any error was collected nothing is written;
otherwise `action == "submit"` rejects an empty `raw`, compares manual hours
plus 7.5 per approved-leave weekday against 37.5, and on success upserts every
pair with `submitted=True` inside one atomic transaction (`update_or_create`
runs `TimeEntry.save`, hence `full_clean`, and `get_object_or_404` checks the
project row first — any failure aborts the whole transaction). -/
/-- The window `days = [week_start + timedelta(days=i) for i in range(5)]`. -/
def weekDays (ws : Nat) : List Nat := (List.range 5).map (ws + ·)

/-- The `approved_leave_days` set built by the view: weekdays of the week
covered by an APPROVED leave request of the user.  (The view's loop over the
overlapping requests adds exactly these days to a set; the filter is the same
set.) -/
def approved_leave_days (leaves : List LeaveRequest) (u ws : Nat) :
    List Nat :=
  (weekDays ws).filter fun d => isBusinessDay d && isLeaveDay leaves u d

/-- State of the parsing loop: the `daily_totals` dict, the number of
collected error messages, and the `raw` dict in insertion order. -/
structure ParseState where
  totals : Nat → ℤ
  errCount : Nat
  raw : List ((Nat × Nat) × ℤ)

/-- The update `daily_totals[dt] += hrs` as a function update. -/
def bumpAt (t : Nat → ℤ) (d : Nat) (h : ℤ) : Nat → ℤ :=
  fun x => if x = d then t d + h else t x

/-- One iteration of the parsing loop, for a posted field
`hours_<pid>_<date> = value`: skip dates outside the week, count an error for
an unparsable Decimal (`f.2 = none`), otherwise bump the day total, flag the
total exceeding 7.5 (750), and store the pair in `raw` (dict overwrite). -/
def parseField (days : List Nat) (st : ParseState)
    (f : (Nat × Nat) × Option ℤ) : ParseState :=
  if f.1.2 ∈ days then
    match f.2 with
    | none => { st with errCount := st.errCount + 1 }
    | some hrs =>
      { totals := bumpAt st.totals f.1.2 hrs
        errCount := if st.totals f.1.2 + hrs > 750 then st.errCount + 1
          else st.errCount
        raw := (st.raw.filter fun q => decide (¬ q.1 = f.1)) ++ [(f.1, hrs)] }
  else st

/-- The whole parsing loop over `request.POST.items()` (already matched
against `HOURS_RE` and restricted to non-empty values). -/
def parseFields (days : List Nat) (fields : List ((Nat × Nat) × Option ℤ)) :
    ParseState :=
  fields.foldl (parseField days) ⟨fun _ => 0, 0, []⟩

/-- Lookup `get_object_or_404(Project, pk=pid, members=request.user, active=True)`
succeeds. -/
def projectOK (s : State) (u pid : Nat) : Bool :=
  s.projects.any fun p =>
    decide (p.id = pid ∧ p.active = true ∧ u ∈ p.members)

/-- One iteration of the persistence loop: the project lookup, then
`TimeEntry.objects.update_or_create(…)` (which runs `full_clean`). -/
def persistPair (u : Nat) (sub : Bool) (s : State) (q : (Nat × Nat) × ℤ) :
    Except SaveError State :=
  if projectOK s u q.1.1 then saveTimeEntry s u q.1.1 q.1.2 q.2 sub
  else .error (.projectNotFound q.1.1)

/-- The persistence loop inside `transaction.atomic()`: the first failure
aborts, and the caller keeps the pre-transaction state. -/
def persistAll (s : State) (u : Nat) (pairs : List ((Nat × Nat) × ℤ))
    (sub : Bool) : Except SaveError State :=
  pairs.foldlM (persistPair u sub) s

/-- Outcome of the POST handler. -/
inductive SubmitResult where
  | validationErrors (count : Nat)
  | emptyTimesheet
  | incomplete (shortfall : ℤ)
  | saveFailed (e : SaveError)
  | success
deriving DecidableEq

/-- The `weekly_timesheet` view, POST branch with `action == "submit"`. -/
def weekly_timesheet_submit (s : State) (u ws : Nat)
    (fields : List ((Nat × Nat) × Option ℤ)) : SubmitResult × State :=
  let ps := parseFields (weekDays ws) fields
  if ps.errCount ≠ 0 then (.validationErrors ps.errCount, s)
  else if ps.raw = [] then (.emptyTimesheet, s)
  else
    let manualHours := (ps.raw.map (·.2)).sum
    let leaveHours : ℤ := (approved_leave_days s.leaves u ws).length * 750
    let totalWeekHours := manualHours + leaveHours
    if totalWeekHours < 3750 then
      (.incomplete (3750 - totalWeekHours), s)
    else
      match persistAll s u ps.raw true with
      | .ok s' => (.success, s')
      | .error e => (.saveFailed e, s)

/-- The parsed `raw` dict of a submission. -/
def parsedRaw (ws : Nat) (fields : List ((Nat × Nat) × Option ℤ)) :
    List ((Nat × Nat) × ℤ) :=
  (parseFields (weekDays ws) fields).raw

/-- The total `total_week_hours = manual_hours + leave_hours` of a submission. -/
def submitTotal (s : State) (u ws : Nat)
    (fields : List ((Nat × Nat) × Option ℤ)) : ℤ :=
  ((parsedRaw ws fields).map (·.2)).sum
    + (approved_leave_days s.leaves u ws).length * 750

/-! ## Lemmas about the parsing loop -/
/-- Sum of the parsed hours with date `d` in a list of pairs. -/
def sumAtDate (l : List ((Nat × Nat) × ℤ)) (d : Nat) : ℤ :=
  ((l.filter fun q => decide (q.1.2 = d)).map (·.2)).sum

/-- The per-day cap discipline of the parsing loop, replayed: starting from
the day totals `t`, every pair can be added without any day total passing
7.5 hours (750). -/
def capChain : (Nat → ℤ) → List ((Nat × Nat) × ℤ) → Prop
  | _, [] => True
  | t, q :: rest => t q.1.2 + q.2 ≤ 750 ∧ capChain (bumpAt t q.1.2 q.2) rest

/-! ## Helper lemmas about the business-day count -/
lemma businessDaysFrom_eq_countP (n : Nat) :
    ∀ d : Nat, businessDaysFrom d n
      = ((List.range n).map (d + ·)).countP isBusinessDay := by
  induction n with
  | zero => intro d; simp [businessDaysFrom]
  | succ m ih =>
    intro d
    rw [List.range_succ_eq_map]
    simp only [List.map_cons, List.map_map, List.countP_cons, businessDaysFrom]
    have hmap : (List.range m).map ((d + ·) ∘ Nat.succ)
        = (List.range m).map ((d + 1) + ·) := by
      apply List.map_congr_left
      intro i _
      simp only [Function.comp_apply]
      omega
    rw [hmap, ← ih (d + 1)]
    by_cases hb : isBusinessDay d
    · simp [hb, Nat.add_comm]
    · simp [hb]

/-- C1: for start ≤ end, `calculate_business_days` counts exactly the days in
the closed range whose weekday is Monday–Friday; when `start = end` on a
weekday it returns 1; and for a range of weekdays only it equals the number of
calendar days in the range. -/
theorem C1_business_days (s e : Nat) (hse : s ≤ e) :
    calculate_business_days s e
        = (((List.range (e + 1 - s)).map (s + ·)).filter isBusinessDay).length
    ∧ (s = e → isBusinessDay s = true → calculate_business_days s e = 1)
    ∧ ((∀ d : Nat, s ≤ d → d ≤ e → isBusinessDay d = true) →
        calculate_business_days s e = e + 1 - s) := by
  refine ⟨?_, ?_, ?_⟩
  · rw [calculate_business_days, businessDaysFrom_eq_countP,
      List.countP_eq_length_filter]
  · intro heq hb
    subst heq
    have h1 : s + 1 - s = 1 := by omega
    rw [calculate_business_days, h1]
    simp [businessDaysFrom, hb]
  · intro hall
    rw [calculate_business_days, businessDaysFrom_eq_countP,
      List.countP_eq_length_filter]
    have hfull : ((List.range (e + 1 - s)).map (s + ·)).filter isBusinessDay
        = (List.range (e + 1 - s)).map (s + ·) := by
      rw [List.filter_eq_self]
      intro a ha
      rcases List.mem_map.mp ha with ⟨i, hi, rfl⟩
      have hilt : i < e + 1 - s := List.mem_range.mp hi
      exact hall (s + i) (Nat.le_add_right s i) (by omega)
    rw [hfull, List.length_map, List.length_range]

lemma sumUserDate_insertEntry (s : State) (u p d : Nat) (h : ℤ) (sub : Bool) :
    sumUserDate (insertEntry s u p d h sub).entries u d
      = otherHours s.entries u p d + h := by
  unfold sumUserDate insertEntry otherHours
  rw [List.filter_append, List.map_append, List.sum_append, List.filter_filter]
  have hpred : ∀ e ∈ s.entries,
      (decide (e.user = u ∧ e.date = d) &&
        decide (¬ (e.user = u ∧ e.project = p ∧ e.date = d)))
        = decide (e.user = u ∧ e.date = d ∧ ¬ e.project = p) := by
    intro e _
    by_cases h1 : e.user = u <;> by_cases h2 : e.project = p <;>
      by_cases h3 : e.date = d <;> simp [h1, h2, h3]
  rw [List.filter_congr hpred]
  simp

/-- C3: on a date not covered by any APPROVED leave request, a `TimeEntry`
save whose hours would push the user's total for that date over 7.5 raises the
validation error (so no row is written), and after every successful save of an
entry for that date the user's total across all projects is at most 7.5. -/
theorem C3_daily_hours_cap (s : State) (u p d : Nat) (h : ℤ) (sub : Bool)
    (hnl : isLeaveDay s.leaves u d = false) :
    (otherHours s.entries u p d + h > 750 →
        saveTimeEntry s u p d h sub = .error (.capExceeded h d)) ∧
    (∀ s', saveTimeEntry s u p d h sub = .ok s' →
        sumUserDate s'.entries u d ≤ 750) := by
  constructor
  · intro hover
    simp [saveTimeEntry, TimeEntry_clean, hnl, hover]
  · intro s' hok
    by_cases hover : otherHours s.entries u p d + h > 750
    · exfalso
      simp [saveTimeEntry, TimeEntry_clean, hnl, hover] at hok
    · by_cases hf : h > 9999 ∨ h < -9999
      · exfalso
        simp [saveTimeEntry, TimeEntry_clean, TimeEntry_clean_fields, hnl,
          hover, hf] at hok
      · simp [saveTimeEntry, TimeEntry_clean, TimeEntry_clean_fields, hnl,
          hover, hf] at hok
        subst hok
        rw [sumUserDate_insertEntry]
        exact le_of_not_lt hover

/-- Witness for C3 at a concrete state: user 1 already has 5 hours (500) on
day 7 and no leave, so writing 3 more hours (300) on another project is
rejected with the validation error. -/
theorem C3_daily_hours_cap_witness :
    saveTimeEntry ⟨[], [], [⟨1, 4, 7, 500, false⟩], [], []⟩ 1 9 7 300 false
      = .error (.capExceeded 300 7) :=
  (C3_daily_hours_cap ⟨[], [], [⟨1, 4, 7, 500, false⟩], [], []⟩ 1 9 7 300 false
    (by decide)).1 (by decide)

/-- C10: `User.get_leave_balance` returns 0 (rather than raising) when no
`LeaveEntitlement` row exists for the leave type and year, and returns that
entitlement's `remaining_days` when the row exists. -/
theorem C10_get_leave_balance (s : State) (u lt y : Nat) :
    (findEntitlement s u lt y = none → get_leave_balance s u lt y = 0) ∧
    (∀ ent, findEntitlement s u lt y = some ent →
      get_leave_balance s u lt y = remaining_days s ent) := by
  constructor
  · intro h
    simp [get_leave_balance, h]
  · intro ent h
    simp [get_leave_balance, h]

/-- Witness for C10: with a single entitlement row (user 1, type 2, year 1970,
25.0 allocated days) the balance of the missing type 3 is 0 and the balance of
type 2 is its `remaining_days`. -/
theorem C10_get_leave_balance_witness :
    get_leave_balance ⟨[], [], [], [⟨1, 2, 1970, 250⟩], []⟩ 1 3 1970 = 0 ∧
    get_leave_balance ⟨[], [], [], [⟨1, 2, 1970, 250⟩], []⟩ 1 2 1970
      = remaining_days ⟨[], [], [], [⟨1, 2, 1970, 250⟩], []⟩ ⟨1, 2, 1970, 250⟩ :=
  ⟨(C10_get_leave_balance ⟨[], [], [], [⟨1, 2, 1970, 250⟩], []⟩ 1 3 1970).1
      (by decide),
   (C10_get_leave_balance ⟨[], [], [], [⟨1, 2, 1970, 250⟩], []⟩ 1 2 1970).2
      ⟨1, 2, 1970, 250⟩ (by decide)⟩

/-- C8 (code bug): an approve or reject attempt by a user who is not the
direct manager of the request's owner does leave the whole store — the
request's status and every other field — unchanged, but it is *not* answered
with the permission-denied response the claim (and the code's own intent)
describes: the warning logged first (views.py:715) interpolates
`request.id`, an attribute `HttpRequest` does not have (the author meant the
leave request, held in `leave_request`/`request_id`), so the branch raises
`AttributeError` before `JsonResponse({"error": "Permission denied"},
status=403)` is built, and the attempt is answered with a server error.
This theorem evaluates the embedded view on that path. -/
theorem C8_manager_permission (s : State) (actor rid : Nat) (act : Decision)
    (lr : LeaveRequest) (hfind : findLeave s rid = some lr)
    (hmgr : ∀ o, findUser s lr.user = some o → ¬ o.manager = some actor) :
    approve_reject_leave s actor rid act = (.serverError, s) := by
  have hm : is_manager_of s actor lr.user = false := by
    unfold is_manager_of
    cases ho : findUser s lr.user with
    | none => rfl
    | some o => simpa using hmgr o ho
  unfold approve_reject_leave
  rw [hfind]
  simp [hm]

/-- Witness for C8: user 7 (not user 1's manager, who is user 9) attempts an
approval; the branch crashes (server error) and the store is unchanged. -/
theorem C8_manager_permission_witness :
    approve_reject_leave
        ⟨[⟨1, some 9⟩, ⟨7, none⟩, ⟨9, none⟩], [], [], [],
          [⟨1, 1, 1, 7, 8, 20, .PENDING, none, ""⟩]⟩ 7 1 .approveAct
      = (.serverError,
          ⟨[⟨1, some 9⟩, ⟨7, none⟩, ⟨9, none⟩], [], [], [],
            [⟨1, 1, 1, 7, 8, 20, .PENDING, none, ""⟩]⟩) :=
  C8_manager_permission _ 7 1 .approveAct ⟨1, 1, 1, 7, 8, 20, .PENDING, none, ""⟩
    (by decide)
    (fun o ho => by
      have : o = ⟨1, some 9⟩ := by
        have hv : findUser
            (⟨[⟨1, some 9⟩, ⟨7, none⟩, ⟨9, none⟩], [], [], [],
              [⟨1, 1, 1, 7, 8, 20, .PENDING, none, ""⟩]⟩ : State) 1
            = some ⟨1, some 9⟩ := by decide
        rw [hv] at ho
        exact (Option.some.injEq _ _).mp ho.symm
      rw [this]
      decide)

/-- C9: a leave-request creation is persisted (result `.created`) only when a
`LeaveEntitlement` row exists for `(user, leave_type, start_date.year)` and
the computed `total_days` is within its current `remaining_days`; when the row
is missing, or the balance is insufficient, a descriptive error is returned
and the state is unchanged. -/
theorem C9_entitlement_gate (s : State) (u today lt sd ed newId : Nat) :
    (∀ td, (leave_request_form s u today lt sd ed newId).1 = .created td →
      ∃ ent, findEntitlement s u lt (yearOf sd) = some ent ∧
        td = 10 * (calculate_business_days sd ed : ℤ) ∧
        td ≤ remaining_days s ent) ∧
    (leaveRequestFormClean s u today sd ed = none →
      findEntitlement s u lt (yearOf sd) = none →
      leave_request_form s u today lt sd ed newId = (.noEntitlement, s)) ∧
    (∀ ent, leaveRequestFormClean s u today sd ed = none →
      findEntitlement s u lt (yearOf sd) = some ent →
      10 * (calculate_business_days sd ed : ℤ) > remaining_days s ent →
      leave_request_form s u today lt sd ed newId
        = (.insufficientBalance (remaining_days s ent), s)) := by
  refine ⟨?_, ?_, ?_⟩
  · intro td hcreated
    unfold leave_request_form at hcreated
    cases hc : leaveRequestFormClean s u today sd ed with
    | some msg => rw [hc] at hcreated; simp at hcreated
    | none =>
      rw [hc] at hcreated
      cases hf : findEntitlement s u lt (yearOf sd) with
      | none => rw [hf] at hcreated; simp at hcreated
      | some ent =>
        rw [hf] at hcreated
        by_cases hbal : 10 * (calculate_business_days sd ed : ℤ)
            > remaining_days s ent
        · simp only [hbal, if_pos] at hcreated
          simp at hcreated
        · simp only [hbal, if_neg, if_false] at hcreated
          simp at hcreated
          exact ⟨ent, rfl, hcreated.symm, by omega⟩
  · intro hc hf
    unfold leave_request_form
    rw [hc, hf]
  · intro ent hc hf hbal
    unfold leave_request_form
    rw [hc, hf]
    simp [hbal]

/-- Witness for C9: with no entitlement rows at all, a creation attempt for
days 7–8 answers `.noEntitlement` and persists nothing. -/
theorem C9_entitlement_gate_witness :
    leave_request_form ⟨[], [], [], [], []⟩ 1 7 1 7 8 1
      = (.noEntitlement, ⟨[], [], [], [], []⟩) :=
  (C9_entitlement_gate ⟨[], [], [], [], []⟩ 1 7 1 7 8 1).2.1 (by decide)
    (by decide)

/-! ## Lemmas: how `used_days` reacts to the state transitions -/
lemma sum_over_updated (l : List LeaveRequest) (g : LeaveRequest → LeaveRequest)
    (p : LeaveRequest → Bool)
    (hp : ∀ x ∈ l, p (g x) = p x)
    (hv : ∀ x ∈ l, (g x).totalDays = x.totalDays) :
    (((l.map g).filter p).map (·.totalDays)).sum
      = ((l.filter p).map (·.totalDays)).sum := by
  induction l with
  | nil => simp
  | cons a t ih =>
    have hpa := hp a (List.mem_cons_self a t)
    have hva := hv a (List.mem_cons_self a t)
    have iht := ih (fun x hx => hp x (List.mem_cons_of_mem a hx))
      (fun x hx => hv x (List.mem_cons_of_mem a hx))
    simp only [List.map_cons, List.filter_cons, hpa]
    by_cases hb : p a = true
    · simp [hb, hva, iht]
    · simp [hb, iht]

/-- Updating the row with key `rid` does not change any `used_days` value as
long as the row is not APPROVED before or after the update and the update
keeps user, type, start date and total days. -/
lemma used_days_updateLeave (s : State) (rid : Nat)
    (f : LeaveRequest → LeaveRequest)
    (hkeep : ∀ lr, (f lr).user = lr.user ∧ (f lr).leaveType = lr.leaveType ∧
      (f lr).startDate = lr.startDate ∧ (f lr).totalDays = lr.totalDays)
    (hstat : ∀ lr ∈ s.leaves, lr.id = rid →
      lr.status ≠ .APPROVED ∧ (f lr).status ≠ .APPROVED) :
    ∀ u lt y, used_days (updateLeave s rid f) u lt y = used_days s u lt y := by
  intro u lt y
  unfold used_days updateLeave
  apply sum_over_updated
  · intro x hx
    by_cases hid : x.id = rid
    · rcases hstat x hx hid with ⟨h1, h2⟩
      rcases hkeep x with ⟨hu, hl, hs', _⟩
      simp only [hid, if_pos]
      simp [hu, hl, hs', h1, h2]
    · simp [hid]
  · intro x hx
    by_cases hid : x.id = rid
    · simp [hid, (hkeep x).2.2.2]
    · simp [hid]

/-- Appending a non-APPROVED request does not change any `used_days` value. -/
lemma used_days_append (s : State) (row : LeaveRequest)
    (hrow : row.status ≠ .APPROVED) :
    ∀ u lt y,
      used_days { s with leaves := s.leaves ++ [row] } u lt y
        = used_days s u lt y := by
  intro u lt y
  unfold used_days
  simp [List.filter_append, hrow]

/-- Function `get_leave_balance` only looks at the entitlement table and `used_days`. -/
lemma get_leave_balance_congr (s s' : State)
    (hent : s'.entitlements = s.entitlements)
    (hused : ∀ u lt y, used_days s' u lt y = used_days s u lt y)
    (u lt y : Nat) :
    get_leave_balance s' u lt y = get_leave_balance s u lt y := by
  unfold get_leave_balance
  have hfind : findEntitlement s' u lt y = findEntitlement s u lt y := by
    unfold findEntitlement
    rw [hent]
  rw [hfind]
  cases h : findEntitlement s u lt y with
  | none => rfl
  | some ent => simp [remaining_days, hused]

/-- C5 counterexample: the claim says only approval changes `remaining_days`,
but rejecting a previously APPROVED request (the `approve_reject_leave` view
never checks the current status) also changes it: user 1 has 10.0 allocated
days (100 tenths) and an APPROVED 2-day request (20 tenths), so the balance is
80; after the manager rejects that request the balance is back to 100. -/
theorem C5_counterexample :
    get_leave_balance
        ⟨[⟨1, some 9⟩, ⟨9, none⟩], [], [], [⟨1, 1, 1970, 100⟩],
          [⟨1, 1, 1, 7, 8, 20, .APPROVED, none, ""⟩]⟩ 1 1 1970 = 80 ∧
    (approve_reject_leave
        ⟨[⟨1, some 9⟩, ⟨9, none⟩], [], [], [⟨1, 1, 1970, 100⟩],
          [⟨1, 1, 1, 7, 8, 20, .APPROVED, none, ""⟩]⟩ 9 1
        (.rejectAct "changed")).1 = .done ∧
    get_leave_balance
        (approve_reject_leave
          ⟨[⟨1, some 9⟩, ⟨9, none⟩], [], [], [⟨1, 1, 1970, 100⟩],
            [⟨1, 1, 1, 7, 8, 20, .APPROVED, none, ""⟩]⟩ 9 1
          (.rejectAct "changed")).2 1 1 1970 = 100 := by
  decide

/-- C5 (amended): `remaining_days` always equals `allocated_days` minus the
sum of `total_days` over APPROVED requests of that type starting in that year;
creating a new PENDING request leaves every balance unchanged; and rejecting
or cancelling a request that is still PENDING leaves every balance unchanged —
so among operations applied to PENDING requests, only approval changes a
balance.  (Rejecting an already-APPROVED request changes it too, which is what
the counterexample forces the claim to exclude.) -/
theorem C5_amended :
    (∀ (s : State) (ent : LeaveEntitlement),
      remaining_days s ent
        = ent.allocatedDays - used_days s ent.user ent.leaveType ent.year) ∧
    (∀ (s : State) (u today lt sd ed newId u' lt' y' : Nat),
      get_leave_balance (leave_request_form s u today lt sd ed newId).2 u' lt' y'
        = get_leave_balance s u' lt' y') ∧
    (∀ (s : State) (actor rid : Nat) (reason : String),
      (∀ lr ∈ s.leaves, lr.id = rid → lr.status = .PENDING) →
      ∀ u' lt' y',
        get_leave_balance
          (approve_reject_leave s actor rid (.rejectAct reason)).2 u' lt' y'
          = get_leave_balance s u' lt' y') ∧
    (∀ (s : State) (actor rid : Nat),
      (∀ lr ∈ s.leaves, lr.id = rid → lr.status = .PENDING) →
      ∀ u' lt' y',
        get_leave_balance (cancel_leave_request s actor rid).2 u' lt' y'
          = get_leave_balance s u' lt' y') := by
  refine ⟨fun s ent => rfl, ?_, ?_, ?_⟩
  · intro s u today lt sd ed newId u' lt' y'
    unfold leave_request_form
    cases hc : leaveRequestFormClean s u today sd ed with
    | some msg => rfl
    | none =>
      cases hf : findEntitlement s u lt (yearOf sd) with
      | none => rfl
      | some ent =>
        by_cases hbal : 10 * (calculate_business_days sd ed : ℤ)
            > remaining_days s ent
        · simp [hbal]
        · simp only [hbal, if_false]
          apply get_leave_balance_congr
          · rfl
          · exact used_days_append s
              ⟨newId, u, lt, sd, ed,
                10 * (calculate_business_days sd ed : ℤ), .PENDING, none, ""⟩
              (by simp)
  · intro s actor rid reason hp u' lt' y'
    unfold approve_reject_leave
    cases hf : findLeave s rid with
    | none => rfl
    | some lr =>
      by_cases hm : is_manager_of s actor lr.user = true
      · simp only [hm, if_pos]
        by_cases hr : reason = ""
        · simp [hr]
        · simp only [hr, if_false]
          apply get_leave_balance_congr
          · rfl
          · refine used_days_updateLeave s rid _
              (fun lr' => ⟨rfl, rfl, rfl, rfl⟩) ?_
            intro lr' hmem hid
            exact ⟨by simp [hp lr' hmem hid], by simp⟩
      · simp [hm]
  · intro s actor rid hp u' lt' y'
    unfold cancel_leave_request
    cases hf : s.leaves.find? fun lr => decide (lr.id = rid ∧ lr.user = actor)
      with
    | none => rfl
    | some lr =>
      by_cases hst : lr.status ≠ Status.PENDING
      · simp [hst]
      · simp only [hst, if_false]
        apply get_leave_balance_congr
        · rfl
        · refine used_days_updateLeave s rid _
            (fun lr' => ⟨rfl, rfl, rfl, rfl⟩) ?_
          intro lr' hmem hid
          exact ⟨by simp [hp lr' hmem hid], by simp⟩

/-- Witness for C5 (amended): rejecting a PENDING request leaves the balance
unchanged at 100 tenths. -/
theorem C5_amended_witness :
    get_leave_balance
        (approve_reject_leave
          ⟨[⟨1, some 9⟩, ⟨9, none⟩], [], [], [⟨1, 1, 1970, 100⟩],
            [⟨1, 1, 1, 7, 8, 20, .PENDING, none, ""⟩]⟩ 9 1
          (.rejectAct "no")).2 1 1 1970
      = get_leave_balance
          ⟨[⟨1, some 9⟩, ⟨9, none⟩], [], [], [⟨1, 1, 1970, 100⟩],
            [⟨1, 1, 1, 7, 8, 20, .PENDING, none, ""⟩]⟩ 1 1 1970 :=
  C5_amended.2.2.1
    ⟨[⟨1, some 9⟩, ⟨9, none⟩], [], [], [⟨1, 1, 1970, 100⟩],
      [⟨1, 1, 1, 7, 8, 20, .PENDING, none, ""⟩]⟩ 9 1 "no"
    (by decide) 1 1 1970

/-! ## Lemmas: shapes of the approve / reject / cancel transitions -/
/-- Rows of an updated store that are PENDING were already present: the
updates applied by approve / reject / cancel never produce a PENDING row. -/
lemma pending_mem_updateLeave (s : State) (rid : Nat)
    (f : LeaveRequest → LeaveRequest)
    (hf : ∀ l, (f l).status ≠ Status.PENDING) :
    ∀ l' ∈ (updateLeave s rid f).leaves, l'.status = .PENDING →
      l' ∈ s.leaves := by
  intro l' hl' hp
  unfold updateLeave at hl'
  simp only [List.mem_map] at hl'
  rcases hl' with ⟨l, hlmem, hleq⟩
  by_cases hlid : l.id = rid
  · rw [if_pos hlid] at hleq
    rw [← hleq] at hp
    exact absurd hp (hf l)
  · rw [if_neg hlid] at hleq
    rw [← hleq]
    exact hlmem

/-- View `approve_reject_leave` either leaves the store unchanged or updates the
`rid` row with a function that only overwrites status (to APPROVED for the
approve action, to REJECTED for the reject action), approver and reason,
keeping id, user and the date range. -/
lemma approve_reject_cases (s : State) (actor rid : Nat) (act : Decision) :
    (approve_reject_leave s actor rid act).2 = s ∨
    ∃ f, (approve_reject_leave s actor rid act).2 = updateLeave s rid f ∧
      (∀ l, (f l).id = l.id) ∧ (∀ l, (f l).user = l.user) ∧
      (∀ l, (f l).startDate = l.startDate) ∧
      (∀ l, (f l).endDate = l.endDate) ∧
      ((act = .approveAct ∧ ∀ l, (f l).status = Status.APPROVED) ∨
        (∀ l, (f l).status = Status.REJECTED)) := by
  unfold approve_reject_leave
  cases hf : findLeave s rid with
  | none => left; rfl
  | some lr =>
    by_cases hm : is_manager_of s actor lr.user = true
    · cases act with
      | approveAct =>
        right
        refine ⟨fun l => { l with status := .APPROVED
                                  approvedBy := some actor },
          ?_, fun l => rfl, fun l => rfl, fun l => rfl, fun l => rfl,
          Or.inl ⟨rfl, fun l => rfl⟩⟩
        simp [hm]
      | rejectAct reason =>
        by_cases hr : reason = ""
        · left; simp [hm, hr]
        · right
          refine ⟨fun l => { l with status := .REJECTED
                                    approvedBy := some actor
                                    rejectionReason := reason },
            ?_, fun l => rfl, fun l => rfl, fun l => rfl, fun l => rfl,
            Or.inr fun l => rfl⟩
          simp [hm, hr]
    · left
      simp [hm]

/-- View `cancel_leave_request` either leaves the store unchanged or cancels the
`rid` row. -/
lemma cancel_cases (s : State) (actor rid : Nat) :
    (cancel_leave_request s actor rid).2 = s ∨
    (cancel_leave_request s actor rid).2
      = updateLeave s rid fun l => { l with status := .CANCELLED } := by
  unfold cancel_leave_request
  cases hf : s.leaves.find? fun lr => decide (lr.id = rid ∧ lr.user = actor)
    with
  | none => left; rfl
  | some lr =>
    by_cases hst : lr.status ≠ Status.PENDING
    · left; simp [hst]
    · right; simp [hst]

/-- C7 counterexample: REJECTED is not terminal.  `approve_reject_leave`
never inspects the current status, so the owner's direct manager can approve
a REJECTED request, whose status then becomes APPROVED. -/
theorem C7_counterexample :
    approve_reject_leave
        ⟨[⟨1, some 9⟩, ⟨9, none⟩], [], [], [],
          [⟨1, 1, 1, 7, 8, 20, .REJECTED, none, "no"⟩]⟩ 9 1 .approveAct
      = (.done,
          ⟨[⟨1, some 9⟩, ⟨9, none⟩], [], [], [],
            [⟨1, 1, 1, 7, 8, 20, .APPROVED, some 9, "no"⟩]⟩) := by
  decide

/-- C7 (amended): the guarded part of the state machine that the code does
enforce.  `cancel_leave_request` refuses to touch a non-PENDING request and
cancels a PENDING one (owner only — the lookup is filtered by
`user=request.user`); no operation ever produces a PENDING row that was not
already stored (so nothing returns to PENDING); and `approve_reject_leave`
sets the status of the target row to APPROVED for the approve action — but it
does so regardless of the row's previous status, so APPROVED / REJECTED /
CANCELLED are *not* terminal under manager actions, which is what the
counterexample forces the claim to give up. -/
theorem C7_amended :
    (∀ (s : State) (actor rid : Nat) (lr : LeaveRequest),
      (s.leaves.find? fun l => decide (l.id = rid ∧ l.user = actor))
          = some lr →
      lr.status ≠ .PENDING →
      cancel_leave_request s actor rid = (.notPending, s)) ∧
    (∀ (s : State) (actor rid : Nat) (lr : LeaveRequest),
      (s.leaves.find? fun l => decide (l.id = rid ∧ l.user = actor))
          = some lr →
      lr.status = .PENDING →
      (cancel_leave_request s actor rid).1 = .done ∧
      ∀ l' ∈ (cancel_leave_request s actor rid).2.leaves, l'.id = rid →
        l'.status = .CANCELLED) ∧
    (∀ (s : State) (actor rid : Nat) (act : Decision),
      ∀ l' ∈ (approve_reject_leave s actor rid act).2.leaves,
        l'.status = .PENDING → l' ∈ s.leaves) ∧
    (∀ (s : State) (actor rid : Nat),
      ∀ l' ∈ (cancel_leave_request s actor rid).2.leaves,
        l'.status = .PENDING → l' ∈ s.leaves) ∧
    (∀ (s : State) (actor rid : Nat) (lr : LeaveRequest),
      findLeave s rid = some lr → is_manager_of s actor lr.user = true →
      ∀ l' ∈ (approve_reject_leave s actor rid .approveAct).2.leaves,
        l'.id = rid → l'.status = .APPROVED) := by
  refine ⟨?_, ?_, ?_, ?_, ?_⟩
  · intro s actor rid lr hfind hst
    unfold cancel_leave_request
    rw [hfind]
    simp [hst]
  · intro s actor rid lr hfind hst
    have hres : cancel_leave_request s actor rid
        = (.done, updateLeave s rid fun l => { l with status := .CANCELLED })
        := by
      unfold cancel_leave_request
      rw [hfind]
      simp [hst]
    rw [hres]
    refine ⟨rfl, ?_⟩
    intro l' hl' hid
    unfold updateLeave at hl'
    simp only [List.mem_map] at hl'
    rcases hl' with ⟨l, hlmem, hleq⟩
    by_cases hlid : l.id = rid
    · rw [if_pos hlid] at hleq
      rw [← hleq]
    · rw [if_neg hlid] at hleq
      rw [← hleq] at hid
      exact absurd hid hlid
  · intro s actor rid act l' hl' hpend
    rcases approve_reject_cases s actor rid act with
      hcase | ⟨f, hres, _, _, _, _, hstd⟩
    · rw [hcase] at hl'
      exact hl'
    · rw [hres] at hl'
      refine pending_mem_updateLeave s rid f ?_ l' hl' hpend
      intro l
      rcases hstd with ⟨_, ha⟩ | hr
      · rw [ha l]
        simp
      · rw [hr l]
        simp
  · intro s actor rid l' hl' hpend
    rcases cancel_cases s actor rid with hcase | hres
    · rw [hcase] at hl'
      exact hl'
    · rw [hres] at hl'
      exact pending_mem_updateLeave s rid _ (fun l => by simp) l' hl' hpend
  · intro s actor rid lr hfind hm l' hl' hid
    have hres : approve_reject_leave s actor rid .approveAct
        = (.done, updateLeave s rid fun l =>
            { l with status := .APPROVED, approvedBy := some actor }) := by
      unfold approve_reject_leave
      rw [hfind]
      simp [hm]
    rw [hres] at hl'
    unfold updateLeave at hl'
    simp only [List.mem_map] at hl'
    rcases hl' with ⟨l, hlmem, hleq⟩
    by_cases hlid : l.id = rid
    · rw [if_pos hlid] at hleq
      rw [← hleq]
    · rw [if_neg hlid] at hleq
      rw [← hleq] at hid
      exact absurd hid hlid

/-- Witness for C7 (amended): cancelling an APPROVED request is refused and
the store is unchanged. -/
theorem C7_amended_witness :
    cancel_leave_request
        ⟨[⟨1, some 9⟩, ⟨9, none⟩], [], [], [],
          [⟨1, 1, 1, 7, 8, 20, .APPROVED, none, ""⟩]⟩ 1 1
      = (.notPending,
          ⟨[⟨1, some 9⟩, ⟨9, none⟩], [], [], [],
            [⟨1, 1, 1, 7, 8, 20, .APPROVED, none, ""⟩]⟩) :=
  C7_amended.1
    ⟨[⟨1, some 9⟩, ⟨9, none⟩], [], [], [],
      [⟨1, 1, 1, 7, 8, 20, .APPROVED, none, ""⟩]⟩ 1 1
    ⟨1, 1, 1, 7, 8, 20, .APPROVED, none, ""⟩ (by decide) (by decide)

/-- What a successful `LeaveRequestForm.clean` guarantees: the range is
ordered, not in the past, and no PENDING/APPROVED request of the user
intersects it. -/
lemma leaveRequestFormClean_none (s : State) (u today sd ed : Nat)
    (h : leaveRequestFormClean s u today sd ed = none) :
    sd ≤ ed ∧ today ≤ sd ∧
    (s.leaves.any fun lr =>
      decide (lr.user = u ∧
        (lr.status = Status.PENDING ∨ lr.status = Status.APPROVED) ∧
        lr.startDate ≤ ed ∧ sd ≤ lr.endDate)) = false := by
  unfold leaveRequestFormClean at h
  split_ifs at h with h1 h2 h3
  refine ⟨by omega, by omega, ?_⟩
  simpa using h3

/-- Updating the `rid` row with a function that keeps user and dates and
does not activate any inactive row preserves the overlap invariant. -/
lemma noActiveOverlap_updateLeave (s : State) (rid : Nat)
    (f : LeaveRequest → LeaveRequest)
    (hu : ∀ l, (f l).user = l.user)
    (hsd : ∀ l, (f l).startDate = l.startDate)
    (hed : ∀ l, (f l).endDate = l.endDate)
    (hact : ∀ l ∈ s.leaves, l.id = rid →
      isActive (f l).status → isActive l.status)
    (hinv : noActiveOverlap s) : noActiveOverlap (updateLeave s rid f) := by
  unfold noActiveOverlap updateLeave at *
  rw [List.pairwise_map]
  refine List.Pairwise.imp_of_mem ?_ hinv
  intro a b ha hb hR
  have hgu : ∀ l, (if l.id = rid then f l else l).user = l.user := by
    intro l
    by_cases h : l.id = rid <;> simp [h, hu]
  have hgsd : ∀ l, (if l.id = rid then f l else l).startDate = l.startDate
      := by
    intro l
    by_cases h : l.id = rid <;> simp [h, hsd]
  have hged : ∀ l, (if l.id = rid then f l else l).endDate = l.endDate := by
    intro l
    by_cases h : l.id = rid <;> simp [h, hed]
  have hga : ∀ l, l ∈ s.leaves →
      isActive (if l.id = rid then f l else l).status → isActive l.status
      := by
    intro l hl hIa
    by_cases h : l.id = rid
    · rw [if_pos h] at hIa
      exact hact l hl h hIa
    · rwa [if_neg h] at hIa
  intro huser hacta hactb hover
  refine hR ?_ (hga a ha hacta) (hga b hb hactb) ?_
  · rw [hgu a, hgu b] at huser
    exact huser
  · unfold overlapping at hover ⊢
    rw [hgsd a, hged b, hgsd b, hged a] at hover
    exact hover

/-- C6 counterexample: the invariant is not preserved by every reachable
sequence.  User 1 (manager: user 9, 10.0 days entitlement for 1970) creates a
request for days 7–8; the manager rejects it; user 1 creates a second request
for the same days (allowed — REJECTED requests are ignored by the overlap
check); the manager then approves the *first* request (the view never checks
its current status).  Both requests now cover days 7–8 and are APPROVED and
PENDING respectively. -/
theorem C6_counterexample :
    ¬ noActiveOverlap
        (approve_reject_leave
          ((leave_request_form
            ((approve_reject_leave
              ((leave_request_form
                ⟨[⟨1, some 9⟩, ⟨9, none⟩], [], [], [⟨1, 1, 1970, 100⟩], []⟩
                1 7 1 7 8 1).2)
              9 1 (.rejectAct "overbooked")).2)
            1 7 1 7 8 2).2)
          9 1 .approveAct).2 := by
  decide

/-- C6 (amended): creation does reject any request that overlaps one of the
requester's own PENDING or APPROVED requests, and the invariant is preserved
by creation, by rejection, by cancellation, and by approval *of a request
whose rows are still PENDING/APPROVED-free of conflicts — i.e. when approve
and reject are only ever applied to PENDING requests* (the counterexample
shows approval of a previously-REJECTED request can break it). -/
theorem C6_amended :
    (∀ (s : State) (u today lt sd ed newId : Nat) (lr : LeaveRequest),
      lr ∈ s.leaves → lr.user = u → isActive lr.status →
      lr.startDate ≤ ed → sd ≤ lr.endDate →
      ∃ msg, leave_request_form s u today lt sd ed newId
        = (.invalidForm msg, s)) ∧
    (∀ (s : State) (u today lt sd ed newId : Nat),
      noActiveOverlap s →
      noActiveOverlap (leave_request_form s u today lt sd ed newId).2) ∧
    (∀ (s : State) (actor rid : Nat),
      (∀ l ∈ s.leaves, l.id = rid → isActive l.status) →
      noActiveOverlap s →
      noActiveOverlap (approve_reject_leave s actor rid .approveAct).2) ∧
    (∀ (s : State) (actor rid : Nat) (reason : String),
      noActiveOverlap s →
      noActiveOverlap
        (approve_reject_leave s actor rid (.rejectAct reason)).2) ∧
    (∀ (s : State) (actor rid : Nat),
      noActiveOverlap s →
      noActiveOverlap (cancel_leave_request s actor rid).2) := by
  refine ⟨?_, ?_, ?_, ?_, ?_⟩
  · intro s u today lt sd ed newId lr hmem huser hact hle1 hle2
    cases hc : leaveRequestFormClean s u today sd ed with
    | some msg =>
      refine ⟨msg, ?_⟩
      unfold leave_request_form
      rw [hc]
    | none =>
      exfalso
      rcases leaveRequestFormClean_none s u today sd ed hc with ⟨_, _, hany⟩
      rw [List.any_eq_false] at hany
      refine hany lr hmem ?_
      simp only [decide_eq_true_eq]
      exact ⟨huser, hact, hle1, hle2⟩
  · intro s u today lt sd ed newId hinv
    unfold leave_request_form
    cases hc : leaveRequestFormClean s u today sd ed with
    | some msg => exact hinv
    | none =>
      cases hfe : findEntitlement s u lt (yearOf sd) with
      | none => exact hinv
      | some ent =>
        by_cases hbal : 10 * (calculate_business_days sd ed : ℤ)
            > remaining_days s ent
        · simp only [hbal, if_pos]
          exact hinv
        · simp only [hbal, if_false]
          show noActiveOverlap { s with leaves := s.leaves ++ [_] }
          unfold noActiveOverlap
          rw [List.pairwise_append]
          rcases leaveRequestFormClean_none s u today sd ed hc with
            ⟨_, _, hany⟩
          rw [List.any_eq_false] at hany
          refine ⟨hinv, List.pairwise_singleton _ _, ?_⟩
          intro a ha b hb huser hacta hactb hover
          rw [List.mem_singleton] at hb
          subst hb
          have hfact := hany a ha
          simp only [decide_eq_true_eq] at hfact
          exact hfact ⟨huser, hacta, hover.1, hover.2⟩
  · intro s actor rid hpend hinv
    rcases approve_reject_cases s actor rid .approveAct with
      hcase | ⟨f, hres, _, hu, hsd, hed, _⟩
    · rw [hcase]
      exact hinv
    · rw [hres]
      exact noActiveOverlap_updateLeave s rid f hu hsd hed
        (fun l hl hid _ => hpend l hl hid) hinv
  · intro s actor rid reason hinv
    rcases approve_reject_cases s actor rid (.rejectAct reason) with
      hcase | ⟨f, hres, _, hu, hsd, hed, hstd⟩
    · rw [hcase]
      exact hinv
    · rw [hres]
      refine noActiveOverlap_updateLeave s rid f hu hsd hed ?_ hinv
      intro l hl hid hIa
      rcases hstd with ⟨hctr, _⟩ | hr
      · exact Decision.noConfusion hctr
      · rw [hr l] at hIa
        rcases (hIa :
            Status.REJECTED = .PENDING ∨ Status.REJECTED = .APPROVED)
          with h | h
        · exact Status.noConfusion h
        · exact Status.noConfusion h
  · intro s actor rid hinv
    rcases cancel_cases s actor rid with hcase | hres
    · rw [hcase]
      exact hinv
    · rw [hres]
      refine noActiveOverlap_updateLeave s rid _ (fun l => rfl)
        (fun l => rfl) (fun l => rfl) ?_ hinv
      intro l hl hid hIa
      rcases (hIa :
          Status.CANCELLED = .PENDING ∨ Status.CANCELLED = .APPROVED)
        with h | h
      · exact Status.noConfusion h
      · exact Status.noConfusion h

lemma sumAtDate_cons (p : (Nat × Nat) × ℤ) (l : List ((Nat × Nat) × ℤ))
    (d : Nat) :
    sumAtDate (p :: l) d
      = (if p.1.2 = d then p.2 else 0) + sumAtDate l d := by
  unfold sumAtDate
  rw [List.filter_cons]
  by_cases h : p.1.2 = d
  · simp [h]
  · simp [h]

lemma sumAtDate_append (l₁ l₂ : List ((Nat × Nat) × ℤ)) (d : Nat) :
    sumAtDate (l₁ ++ l₂) d = sumAtDate l₁ d + sumAtDate l₂ d := by
  unfold sumAtDate
  rw [List.filter_append, List.map_append, List.sum_append]

lemma capChain_append (l : List ((Nat × Nat) × ℤ)) :
    ∀ (t : Nat → ℤ) (q : (Nat × Nat) × ℤ),
    capChain t (l ++ [q]) ↔
      capChain t l ∧ t q.1.2 + sumAtDate l q.1.2 + q.2 ≤ 750 := by
  induction l with
  | nil =>
    intro t q
    simp only [List.nil_append, capChain, and_true, true_and]
    have h0 : sumAtDate [] q.1.2 = 0 := rfl
    rw [h0]
    constructor <;> intro h <;> omega
  | cons p rest ih =>
    intro t q
    simp only [List.cons_append, capChain, List.append_eq]
    rw [ih (bumpAt t p.1.2 p.2) q]
    have hC : bumpAt t p.1.2 p.2 q.1.2 + sumAtDate rest q.1.2 + q.2 ≤ 750 ↔
        t q.1.2 + sumAtDate (p :: rest) q.1.2 + q.2 ≤ 750 := by
      rw [sumAtDate_cons]
      unfold bumpAt
      by_cases hd : q.1.2 = p.1.2
      · rw [if_pos hd, if_pos hd.symm, hd]
        constructor <;> intro h <;> omega
      · rw [if_neg hd, if_neg (fun hh => hd hh.symm)]
        constructor <;> intro h <;> omega
    rw [hC]
    tauto

lemma capChain_congr (l : List ((Nat × Nat) × ℤ)) :
    ∀ (t t' : Nat → ℤ), (∀ q ∈ l, t q.1.2 = t' q.1.2) →
    (capChain t l ↔ capChain t' l) := by
  induction l with
  | nil => intro t t' _; exact Iff.rfl
  | cons q rest ih =>
    intro t t' h
    simp only [capChain]
    rw [h q (List.mem_cons_self q rest)]
    have h2 : capChain (bumpAt t q.1.2 q.2) rest
        ↔ capChain (bumpAt t' q.1.2 q.2) rest := by
      apply ih
      intro r hr
      unfold bumpAt
      by_cases hd : r.1.2 = q.1.2
      · rw [if_pos hd, if_pos hd, h q (List.mem_cons_self q rest)]
      · rw [if_neg hd, if_neg hd]
        exact h r (List.mem_cons_of_mem q hr)
    rw [h2]

lemma filter_ne_key_of_not_mem (l : List ((Nat × Nat) × ℤ)) (k : Nat × Nat)
    (h : k ∉ l.map (·.1)) :
    (l.filter fun q => decide (¬ q.1 = k)) = l := by
  rw [List.filter_eq_self]
  intro q hq
  simp only [decide_eq_true_eq]
  intro hqk
  exact h (hqk ▸ List.mem_map_of_mem (·.1) hq)

lemma parse_errCount_mono (days : List Nat) :
    ∀ (fields : List ((Nat × Nat) × Option ℤ)) (st : ParseState),
    st.errCount ≤ (List.foldl (parseField days) st fields).errCount := by
  intro fields
  induction fields with
  | nil => intro st; exact le_refl _
  | cons f rest ih =>
    intro st
    rw [List.foldl_cons]
    refine le_trans ?_ (ih (parseField days st f))
    unfold parseField
    by_cases hmem : f.1.2 ∈ days
    · rw [if_pos hmem]
      cases h2 : f.2 with
      | none => simp
      | some hrs =>
        by_cases hcap : st.totals f.1.2 + hrs > 750
        · simp [hcap]
        · simp [hcap]
    · rw [if_neg hmem]

/-- What an error-free run of the parsing loop guarantees about `raw`: the
keys are distinct, every date lies in the week, and replaying the pairs from
zero totals never pushes a day total over 7.5 (750). -/
lemma parse_go_sound (days : List Nat) :
    ∀ (fields : List ((Nat × Nat) × Option ℤ)) (st : ParseState),
    (List.foldl (parseField days) st fields).errCount = 0 →
    ((st.raw.map (·.1)) ++ (fields.map (·.1))).Nodup →
    (∀ d, st.totals d = sumAtDate st.raw d) →
    (∀ q ∈ st.raw, q.1.2 ∈ days) →
    capChain (fun _ => 0) st.raw →
    (((List.foldl (parseField days) st fields).raw.map (·.1)).Nodup ∧
      (∀ q ∈ (List.foldl (parseField days) st fields).raw, q.1.2 ∈ days) ∧
      capChain (fun _ => 0) (List.foldl (parseField days) st fields).raw)
    := by
  intro fields
  induction fields with
  | nil =>
    intro st _ hnd ht hdays hchain
    simp only [List.foldl_nil]
    refine ⟨?_, hdays, hchain⟩
    simpa using hnd
  | cons f rest ih =>
    intro st herr hnd ht hdays hchain
    rw [List.foldl_cons] at herr ⊢
    by_cases hmem : f.1.2 ∈ days
    · cases h2 : f.2 with
      | none =>
        exfalso
        have h1 : (parseField days st f).errCount = st.errCount + 1 := by
          unfold parseField
          rw [if_pos hmem, h2]
        have hmono := parse_errCount_mono days rest (parseField days st f)
        omega
      | some hrs =>
        by_cases hcap : st.totals f.1.2 + hrs > 750
        · exfalso
          have h1 : (parseField days st f).errCount = st.errCount + 1 := by
            unfold parseField
            rw [if_pos hmem, h2]
            show (if st.totals f.1.2 + hrs > 750 then st.errCount + 1
              else st.errCount) = st.errCount + 1
            rw [if_pos hcap]
          have hmono := parse_errCount_mono days rest (parseField days st f)
          omega
        · have hkey : f.1 ∉ st.raw.map (·.1) := by
            intro hk
            rw [List.map_cons] at hnd
            exact List.disjoint_of_nodup_append hnd hk
              (List.mem_cons_self _ _)
          have hrawst : (parseField days st f).raw
              = st.raw ++ [(f.1, hrs)] := by
            unfold parseField
            rw [if_pos hmem, h2]
            show (st.raw.filter fun q => decide (¬ q.1 = f.1))
                ++ [(f.1, hrs)] = st.raw ++ [(f.1, hrs)]
            rw [filter_ne_key_of_not_mem st.raw f.1 hkey]
          have htotals : (parseField days st f).totals
              = bumpAt st.totals f.1.2 hrs := by
            unfold parseField
            rw [if_pos hmem, h2]
          refine ih (parseField days st f) herr ?_ ?_ ?_ ?_
          · rw [hrawst]
            rw [List.map_cons] at hnd
            simp only [List.map_append, List.map_cons, List.map_nil]
            rw [List.append_assoc]
            exact hnd
          · intro d
            rw [htotals, hrawst, sumAtDate_append, sumAtDate_cons]
            have h0 : sumAtDate [] d = 0 := rfl
            rw [h0]
            unfold bumpAt
            by_cases hd : d = f.1.2
            · subst hd
              simp [ht]
            · rw [if_neg hd, if_neg (fun hh => hd hh.symm), ht]
              omega
          · intro q hq
            rw [hrawst] at hq
            rcases List.mem_append.mp hq with h | h
            · exact hdays q h
            · rw [List.mem_singleton] at h
              rw [h]
              exact hmem
          · rw [hrawst, capChain_append]
            refine ⟨hchain, ?_⟩
            show (0 : ℤ) + sumAtDate st.raw f.1.2 + hrs ≤ 750
            have := ht f.1.2
            omega
    · have hst : parseField days st f = st := by
        unfold parseField
        rw [if_neg hmem]
      rw [hst] at herr ⊢
      refine ih st herr ?_ ht hdays hchain
      refine List.Nodup.sublist ?_ hnd
      rw [List.map_cons]
      exact List.Sublist.append_left (List.sublist_cons_self _ _) _

/-! ## Lemmas about the persistence loop -/
lemma otherHours_eq_sumUserDate (entries : List TimeEntry) (u p d : Nat)
    (h : ∀ e ∈ entries, ¬ (e.user = u ∧ e.project = p ∧ e.date = d)) :
    otherHours entries u p d = sumUserDate entries u d := by
  unfold otherHours sumUserDate
  have hfe : entries.filter
        (fun e => decide (e.user = u ∧ e.date = d ∧ ¬ e.project = p))
      = entries.filter (fun e => decide (e.user = u ∧ e.date = d)) := by
    apply List.filter_congr
    intro e he
    by_cases h1 : e.user = u
    · by_cases h2 : e.date = d
      · by_cases h3 : e.project = p
        · exact absurd ⟨h1, h3, h2⟩ (h e he)
        · simp [h1, h2, h3]
      · simp [h1, h2]
    · simp [h1]
  rw [hfe]

lemma insertEntry_entries_fresh (s : State) (u p d : Nat) (h : ℤ)
    (sub : Bool)
    (hfresh : ∀ e ∈ s.entries, ¬ (e.user = u ∧ e.project = p ∧ e.date = d)) :
    (insertEntry s u p d h sub).entries
      = s.entries ++ [⟨u, p, d, h, sub⟩] := by
  unfold insertEntry
  show (s.entries.filter fun e =>
      decide (¬ (e.user = u ∧ e.project = p ∧ e.date = d)))
    ++ [⟨u, p, d, h, sub⟩] = s.entries ++ [⟨u, p, d, h, sub⟩]
  congr 1
  rw [List.filter_eq_self]
  intro e he
  simp only [decide_eq_true_eq]
  exact hfresh e he

lemma sumUserDate_append_one (l : List TimeEntry) (e : TimeEntry)
    (u d : Nat) :
    sumUserDate (l ++ [e]) u d
      = sumUserDate l u d
        + (if e.user = u ∧ e.date = d then e.hours else 0) := by
  unfold sumUserDate
  rw [List.filter_append, List.map_append, List.sum_append]
  congr 1
  by_cases h : e.user = u ∧ e.date = d
  · simp [h]
  · simp [h]

lemma sumUserDate_zero (entries : List TimeEntry) (u d : Nat)
    (h : ∀ e ∈ entries, ¬ (e.user = u ∧ e.date = d)) :
    sumUserDate entries u d = 0 := by
  unfold sumUserDate
  have hfe : entries.filter (fun e => decide (e.user = u ∧ e.date = d))
      = [] := by
    rw [List.filter_eq_nil_iff]
    intro e he
    simpa using h e he
  rw [hfe]
  rfl

/-- If the pair keys are distinct, every project lookup passes, no pair key
collides with an existing row and replaying the pairs respects the per-day
cap, then the whole persistence loop succeeds, touches only the entry table,
stores every pair (with the given `submitted` flag) and keeps every
unrelated row. -/
lemma persistAll_ok :
    ∀ (pairs : List ((Nat × Nat) × ℤ)) (s : State) (u : Nat) (sub : Bool),
    (pairs.map (·.1)).Nodup →
    (∀ q ∈ pairs, projectOK s u q.1.1 = true) →
    (∀ q ∈ pairs, ∀ e ∈ s.entries,
      ¬ (e.user = u ∧ e.project = q.1.1 ∧ e.date = q.1.2)) →
    (∀ q ∈ pairs, -9999 ≤ q.2 ∧ q.2 ≤ 9999) →
    capChain (fun d => sumUserDate s.entries u d) pairs →
    ∃ s', persistAll s u pairs sub = .ok s' ∧
      s'.users = s.users ∧ s'.projects = s.projects ∧
      s'.entitlements = s.entitlements ∧ s'.leaves = s.leaves ∧
      (∀ q ∈ pairs,
        (⟨u, q.1.1, q.1.2, q.2, sub⟩ : TimeEntry) ∈ s'.entries) ∧
      (∀ e ∈ s.entries,
        (∀ q ∈ pairs, ¬ (e.user = u ∧ e.project = q.1.1 ∧ e.date = q.1.2))
          → e ∈ s'.entries) := by
  intro pairs
  induction pairs with
  | nil =>
    intro s u sub _ _ _ _ _
    exact ⟨s, rfl, rfl, rfl, rfl, rfl, by simp, fun e he _ => he⟩
  | cons q rest ih =>
    intro s u sub hnd hproj hdisj hrange hchain
    rw [List.map_cons] at hnd
    have hqnotin : q.1 ∉ rest.map (·.1) := (List.nodup_cons.mp hnd).1
    have hnd' : (rest.map (·.1)).Nodup := (List.nodup_cons.mp hnd).2
    have hfresh : ∀ e ∈ s.entries,
        ¬ (e.user = u ∧ e.project = q.1.1 ∧ e.date = q.1.2) :=
      hdisj q (List.mem_cons_self q rest)
    have hclean : TimeEntry_clean s u q.1.1 q.1.2 q.2 = none := by
      unfold TimeEntry_clean
      by_cases hld : isLeaveDay s.leaves u q.1.2 = true
      · rw [if_pos hld]
      · have hcap : ¬ (otherHours s.entries u q.1.1 q.1.2 + q.2 > 750) := by
          rw [otherHours_eq_sumUserDate s.entries u q.1.1 q.1.2 hfresh]
          have h1 : sumUserDate s.entries u q.1.2 + q.2 ≤ 750 := hchain.1
          omega
        rw [if_neg hld, if_neg hcap]
    have hfields : TimeEntry_clean_fields q.2 = none := by
      unfold TimeEntry_clean_fields
      have hr := hrange q (List.mem_cons_self q rest)
      rw [if_neg (by omega)]
    have hsave : saveTimeEntry s u q.1.1 q.1.2 q.2 sub
        = .ok (insertEntry s u q.1.1 q.1.2 q.2 sub) := by
      unfold saveTimeEntry
      rw [hclean, hfields]
    have hentries1 : (insertEntry s u q.1.1 q.1.2 q.2 sub).entries
        = s.entries ++ [⟨u, q.1.1, q.1.2, q.2, sub⟩] :=
      insertEntry_entries_fresh s u q.1.1 q.1.2 q.2 sub hfresh
    have hproj' : ∀ r ∈ rest,
        projectOK (insertEntry s u q.1.1 q.1.2 q.2 sub) u r.1.1 = true := by
      intro r hr
      exact hproj r (List.mem_cons_of_mem q hr)
    have hdisj' : ∀ r ∈ rest,
        ∀ e ∈ (insertEntry s u q.1.1 q.1.2 q.2 sub).entries,
        ¬ (e.user = u ∧ e.project = r.1.1 ∧ e.date = r.1.2) := by
      intro r hr e he
      rw [hentries1] at he
      rcases List.mem_append.mp he with h | h
      · exact hdisj r (List.mem_cons_of_mem q hr) e h
      · rw [List.mem_singleton] at h
        subst h
        rintro ⟨_, hp2, hd2⟩
        apply hqnotin
        have hk : q.1 = r.1 := Prod.ext hp2 hd2
        rw [hk]
        exact List.mem_map_of_mem (·.1) hr
    have hchain' : capChain
        (fun d => sumUserDate (insertEntry s u q.1.1 q.1.2 q.2 sub).entries
          u d) rest := by
      have h2 : capChain
          (bumpAt (fun d => sumUserDate s.entries u d) q.1.2 q.2) rest :=
        hchain.2
      refine (capChain_congr rest _ _ ?_).mpr h2
      intro r _
      rw [hentries1, sumUserDate_append_one]
      show sumUserDate s.entries u r.1.2
          + (if u = u ∧ q.1.2 = r.1.2 then q.2 else 0)
        = bumpAt (fun d => sumUserDate s.entries u d) q.1.2 q.2 r.1.2
      unfold bumpAt
      by_cases hd : r.1.2 = q.1.2
      · rw [if_pos hd, if_pos ⟨rfl, hd.symm⟩, hd]
      · rw [if_neg hd, if_neg (fun hh => hd hh.2.symm)]
        show sumUserDate s.entries u r.1.2 + 0
          = sumUserDate s.entries u r.1.2
        omega
    rcases ih (insertEntry s u q.1.1 q.1.2 q.2 sub) u sub hnd' hproj'
      hdisj' (fun r hr => hrange r (List.mem_cons_of_mem q hr)) hchain'
      with ⟨s', hpersist, hu', hp', he', hl', hmem', hpres'⟩
    refine ⟨s', ?_, hu', hp', he', hl', ?_, ?_⟩
    · unfold persistAll at hpersist ⊢
      rw [List.foldlM_cons]
      have hpp : persistPair u sub s q
          = .ok (insertEntry s u q.1.1 q.1.2 q.2 sub) := by
        unfold persistPair
        rw [if_pos (hproj q (List.mem_cons_self q rest)), hsave]
      rw [hpp]
      simpa using hpersist
    · intro r hr
      rcases List.mem_cons.mp hr with h | h
      · subst h
        apply hpres' ⟨u, r.1.1, r.1.2, r.2, sub⟩ ?_ ?_
        · rw [hentries1]
          exact List.mem_append_right _ (List.mem_singleton_self _)
        · intro r' hr'
          rintro ⟨_, hp2, hd2⟩
          apply hqnotin
          have hk : r.1 = r'.1 := Prod.ext hp2 hd2
          rw [hk]
          exact List.mem_map_of_mem (·.1) hr'
      · exact hmem' r h
    · intro e he hnone
      apply hpres' e ?_ ?_
      · rw [hentries1]
        exact List.mem_append_left _ he
      · intro r hr
        exact hnone r (List.mem_cons_of_mem q hr)

/-- C4 counterexample: day 7 is covered by an APPROVED leave request of
user 1, yet a submission with 9 parsed hours (900) on that day *is* rejected
by the view's 7.5-hour cap check — the parse-loop cap applies to every day of
the week, leave-covered or not. -/
theorem C4_counterexample :
    isLeaveDay
        ([⟨1, 1, 1, 7, 8, 20, .APPROVED, none, ""⟩] : List LeaveRequest) 1 7
        = true ∧
    weekly_timesheet_submit
        ⟨[⟨1, some 9⟩, ⟨9, none⟩], [⟨5, true, [1]⟩], [], [],
          [⟨1, 1, 1, 7, 8, 20, .APPROVED, none, ""⟩]⟩ 1 7 [((5, 7), some 900)]
      = (.validationErrors 1,
          ⟨[⟨1, some 9⟩, ⟨9, none⟩], [⟨5, true, [1]⟩], [], [],
            [⟨1, 1, 1, 7, 8, 20, .APPROVED, none, ""⟩]⟩) := by
  decide

/-- C4 (amended): on a date covered by an APPROVED leave request,
`TimeEntry.clean` skips the cap entirely — the cap check never rejects a save
on that date, whatever the hours — and a save of any hours value within the
`DecimalField` bounds succeeds outright (only the field-level
`DecimalValidator`, which ignores leave, can still reject there); the weekly
view's parse-level cap, however, applies to every day including leave days,
so a submission whose parsed hours on any single day exceed 7.5 is rejected —
which is what the counterexample forces the claim to concede. -/
theorem C4_amended :
    (∀ (s : State) (u p d : Nat) (h : ℤ),
      isLeaveDay s.leaves u d = true →
      TimeEntry_clean s u p d h = none) ∧
    (∀ (s : State) (u p d : Nat) (h : ℤ) (sub : Bool),
      isLeaveDay s.leaves u d = true →
      -9999 ≤ h → h ≤ 9999 →
      saveTimeEntry s u p d h sub = .ok (insertEntry s u p d h sub)) ∧
    (∀ (s : State) (u ws pid d : Nat) (h : ℤ),
      d ∈ weekDays ws → h > 750 →
      weekly_timesheet_submit s u ws [((pid, d), some h)]
        = (.validationErrors 1, s)) := by
  refine ⟨?_, ?_, ?_⟩
  · intro s u p d h hld
    unfold TimeEntry_clean
    rw [hld]
    simp
  · intro s u p d h sub hld hlo hhi
    have hclean : TimeEntry_clean s u p d h = none := by
      unfold TimeEntry_clean
      rw [hld]
      simp
    have hfields : TimeEntry_clean_fields h = none := by
      unfold TimeEntry_clean_fields
      rw [if_neg (by omega)]
    unfold saveTimeEntry
    rw [hclean, hfields]
  · intro s u ws pid d h hmem hh
    unfold weekly_timesheet_submit parseFields
    simp only [List.foldl_cons, List.foldl_nil]
    unfold parseField
    simp only [hmem, if_true, reduceIte]
    have hcap : (0 : ℤ) + h > 750 := by omega
    simp [hcap, hh]

/-- Witness for C4 (amended): day 7 is an approved-leave day of user 1; a
9-hour (900) model-level save on it succeeds, while the same 9 hours in the
weekly submission is rejected by the parse cap. -/
theorem C4_amended_witness :
    saveTimeEntry
        ⟨[⟨1, some 9⟩, ⟨9, none⟩], [⟨5, true, [1]⟩], [], [],
          [⟨1, 1, 1, 7, 8, 20, .APPROVED, none, ""⟩]⟩ 1 5 7 900 false
      = .ok (insertEntry
          ⟨[⟨1, some 9⟩, ⟨9, none⟩], [⟨5, true, [1]⟩], [], [],
            [⟨1, 1, 1, 7, 8, 20, .APPROVED, none, ""⟩]⟩ 1 5 7 900 false) ∧
    weekly_timesheet_submit
        ⟨[⟨1, some 9⟩, ⟨9, none⟩], [⟨5, true, [1]⟩], [], [],
          [⟨1, 1, 1, 7, 8, 20, .APPROVED, none, ""⟩]⟩ 1 7 [((5, 7), some 900)]
      = (.validationErrors 1,
          ⟨[⟨1, some 9⟩, ⟨9, none⟩], [⟨5, true, [1]⟩], [], [],
            [⟨1, 1, 1, 7, 8, 20, .APPROVED, none, ""⟩]⟩) :=
  ⟨C4_amended.2.1
    ⟨[⟨1, some 9⟩, ⟨9, none⟩], [⟨5, true, [1]⟩], [], [],
      [⟨1, 1, 1, 7, 8, 20, .APPROVED, none, ""⟩]⟩ 1 5 7 900 false (by decide)
    (by decide) (by decide),
   C4_amended.2.2
    ⟨[⟨1, some 9⟩, ⟨9, none⟩], [⟨5, true, [1]⟩], [], [],
      [⟨1, 1, 1, 7, 8, 20, .APPROVED, none, ""⟩]⟩ 1 7 5 7 900 (by decide)
    (by decide)⟩

/-- C2 counterexample: a submission with one parsed pair of 40 hours (4000)
on Monday has total 4000 ≥ 3750, yet it is rejected by the per-day parse cap
before the total is ever compared, and nothing is persisted — the claim's
"total ≥ 37.5 implies every parsed pair is persisted" does not hold without a
proviso on per-day validation. -/
theorem C2_counterexample :
    (3750 : ℤ) ≤ submitTotal
        ⟨[⟨1, some 9⟩, ⟨9, none⟩], [⟨5, true, [1]⟩], [], [], []⟩ 1 7
        [((5, 7), some 4000)] ∧
    weekly_timesheet_submit
        ⟨[⟨1, some 9⟩, ⟨9, none⟩], [⟨5, true, [1]⟩], [], [], []⟩ 1 7
        [((5, 7), some 4000)]
      = (.validationErrors 1,
          ⟨[⟨1, some 9⟩, ⟨9, none⟩], [⟨5, true, [1]⟩], [], [], []⟩) := by
  decide

/-- C2 (amended): for an `action=submit` POST, (a) an empty parsed entry set
is always rejected with no write; (b) when parse validation passes and
`total = manual hours + 7.5 per approved-leave weekday` falls short of 37.5,
the submission is rejected with exactly the shortfall `37.5 − total` and no
entries are written; (c) when parse validation passes, `total ≥ 37.5`, the
field keys are distinct, the user has no pre-existing entries on the week's
days, every referenced project passes the membership lookup, and every
parsed hours value fits `DecimalField(max_digits=4, decimal_places=2)`
(|hours| ≤ 99.99, i.e. |h| ≤ 9999 hundredths), the submission succeeds and
every parsed `(project, date) → hours` pair is persisted with
`submitted = true`.  (The counterexample forces the parse-validation proviso
on the success branch; the no-pre-existing-rows, project and decimal-range
provisos reflect the model-level `full_clean` — `clean` and `clean_fields` —
and `get_object_or_404` calls that run inside the same transaction.) -/
theorem C2_amended :
    (∀ (s : State) (u ws : Nat) (fields : List ((Nat × Nat) × Option ℤ)),
      parsedRaw ws fields = [] →
      (weekly_timesheet_submit s u ws fields).2 = s ∧
      (weekly_timesheet_submit s u ws fields).1 ≠ .success) ∧
    (∀ (s : State) (u ws : Nat) (fields : List ((Nat × Nat) × Option ℤ)),
      (parseFields (weekDays ws) fields).errCount = 0 →
      parsedRaw ws fields ≠ [] →
      submitTotal s u ws fields < 3750 →
      weekly_timesheet_submit s u ws fields
        = (.incomplete (3750 - submitTotal s u ws fields), s)) ∧
    (∀ (s : State) (u ws : Nat) (fields : List ((Nat × Nat) × Option ℤ)),
      (parseFields (weekDays ws) fields).errCount = 0 →
      parsedRaw ws fields ≠ [] →
      3750 ≤ submitTotal s u ws fields →
      (fields.map (·.1)).Nodup →
      (∀ e ∈ s.entries, e.user = u → e.date ∉ weekDays ws) →
      (∀ q ∈ parsedRaw ws fields, projectOK s u q.1.1 = true) →
      (∀ q ∈ parsedRaw ws fields, -9999 ≤ q.2 ∧ q.2 ≤ 9999) →
      ∃ s', weekly_timesheet_submit s u ws fields = (.success, s') ∧
        ∀ q ∈ parsedRaw ws fields,
          (⟨u, q.1.1, q.1.2, q.2, true⟩ : TimeEntry) ∈ s'.entries) := by
  refine ⟨?_, ?_, ?_⟩
  · intro s u ws fields hraw
    unfold parsedRaw at hraw
    by_cases herr : (parseFields (weekDays ws) fields).errCount ≠ 0
    · refine ⟨?_, ?_⟩
      · simp only [weekly_timesheet_submit]
        rw [if_pos herr]
      · simp only [weekly_timesheet_submit]
        rw [if_pos herr]
        simp
    · refine ⟨?_, ?_⟩
      · simp only [weekly_timesheet_submit]
        rw [if_neg herr, if_pos hraw]
      · simp only [weekly_timesheet_submit]
        rw [if_neg herr, if_pos hraw]
        simp
  · intro s u ws fields herr hraw htot
    have herr2 : ¬ (parseFields (weekDays ws) fields).errCount ≠ 0 := by
      omega
    unfold parsedRaw at hraw
    unfold submitTotal parsedRaw at htot ⊢
    simp only [weekly_timesheet_submit]
    rw [if_neg herr2, if_neg hraw, if_pos htot]
  · intro s u ws fields herr hraw htot hnodup hnoprior hprojOK hrange
    have herr2 : ¬ (parseFields (weekDays ws) fields).errCount ≠ 0 := by
      omega
    unfold parsedRaw at hraw hprojOK hrange ⊢
    unfold submitTotal parsedRaw at htot
    have hps := parse_go_sound (weekDays ws) fields ⟨fun _ => 0, 0, []⟩
      herr (by simpa using hnodup) (fun d => rfl) (by simp) trivial
    rcases hps with ⟨hndraw, hdaysr, hchain0⟩
    have hdisj : ∀ q ∈ (parseFields (weekDays ws) fields).raw,
        ∀ e ∈ s.entries,
        ¬ (e.user = u ∧ e.project = q.1.1 ∧ e.date = q.1.2) := by
      intro q hq e he
      rintro ⟨h1, _, h3⟩
      apply hnoprior e he h1
      rw [h3]
      exact hdaysr q hq
    have hchain : capChain (fun d => sumUserDate s.entries u d)
        (parseFields (weekDays ws) fields).raw := by
      refine (capChain_congr _ _ _ ?_).mp hchain0
      intro q hq
      refine (sumUserDate_zero s.entries u q.1.2 ?_).symm
      intro e he hc
      apply hnoprior e he hc.1
      rw [hc.2]
      exact hdaysr q hq
    rcases persistAll_ok (parseFields (weekDays ws) fields).raw s u true
      hndraw hprojOK hdisj hrange hchain
      with ⟨s', hok, _, _, _, _, hmem, _⟩
    refine ⟨s', ?_, hmem⟩
    simp only [weekly_timesheet_submit]
    rw [if_neg herr2, if_neg hraw, if_neg (not_lt.mpr htot), hok]

/-- Witness for C2 (amended): user 1, member of active project 5, no prior
entries, submits 7.5 hours (750) on each of the five weekdays 7–11 — total
exactly 37.5 (3750) — and the submission succeeds with all five pairs
persisted as `submitted = true`. -/
theorem C2_amended_witness :
    ∃ s', weekly_timesheet_submit
        ⟨[⟨1, some 9⟩, ⟨9, none⟩], [⟨5, true, [1]⟩], [], [], []⟩ 1 7
        [((5, 7), some 750), ((5, 8), some 750), ((5, 9), some 750),
          ((5, 10), some 750), ((5, 11), some 750)]
      = (.success, s') ∧
      ∀ q ∈ parsedRaw 7
          [((5, 7), some 750), ((5, 8), some 750), ((5, 9), some 750),
            ((5, 10), some 750), ((5, 11), some 750)],
        (⟨1, q.1.1, q.1.2, q.2, true⟩ : TimeEntry) ∈ s'.entries :=
  C2_amended.2.2
    ⟨[⟨1, some 9⟩, ⟨9, none⟩], [⟨5, true, [1]⟩], [], [], []⟩ 1 7
    [((5, 7), some 750), ((5, 8), some 750), ((5, 9), some 750),
      ((5, 10), some 750), ((5, 11), some 750)]
    (by decide) (by decide) (by decide) (by decide) (by decide) (by decide)
    (by decide)

/-- Witness for C6 (amended): a creation overlapping the requester's own
PENDING request (day 8 lies in both ranges) is rejected with a validation
message and nothing is persisted. -/
theorem C6_amended_witness :
    ∃ msg, leave_request_form
        ⟨[⟨1, some 9⟩, ⟨9, none⟩], [], [], [⟨1, 1, 1970, 100⟩],
          [⟨1, 1, 1, 7, 8, 20, .PENDING, none, ""⟩]⟩ 1 7 1 8 9 2
      = (.invalidForm msg,
          ⟨[⟨1, some 9⟩, ⟨9, none⟩], [], [], [⟨1, 1, 1970, 100⟩],
            [⟨1, 1, 1, 7, 8, 20, .PENDING, none, ""⟩]⟩) :=
  C6_amended.1
    ⟨[⟨1, some 9⟩, ⟨9, none⟩], [], [], [⟨1, 1, 1970, 100⟩],
      [⟨1, 1, 1, 7, 8, 20, .PENDING, none, ""⟩]⟩ 1 7 1 8 9 2
    ⟨1, 1, 1, 7, 8, 20, .PENDING, none, ""⟩
    (by decide) (by decide) (by decide) (by decide) (by decide)

/-- Witness for C1 at the concrete weekday-only range 7 … 11
(Monday 1970-01-05 … Friday 1970-01-09). -/
theorem C1_business_days_witness :
    calculate_business_days 7 11
        = (((List.range (11 + 1 - 7)).map (7 + ·)).filter isBusinessDay).length
    ∧ (7 = 11 → isBusinessDay 7 = true → calculate_business_days 7 11 = 1)
    ∧ ((∀ d : Nat, 7 ≤ d → d ≤ 11 → isBusinessDay d = true) →
        calculate_business_days 7 11 = 11 + 1 - 7) :=
  C1_business_days 7 11 (by decide)

end Timesheet
